import Mathlib

/-!
Verification of the gokv SQL-backed cache-aside key/value client.

The development shallowly embeds the `sqlc` package of bingoohuang/gokv.
The repository carries the client through three revisions:

* revision A (`src/unnamed/part_000`, first file): string-valued client with
  an in-memory cache; `Del` evicts the cache first and runs the backing
  delete in a deferred call whose error is logged and swallowed.
* revision B (`src/unnamed/part_000`, second file): cache-less client with
  codec-marshalled values and an `Option` metadata envelope carrying
  `Expired` and `CreateTime`; `Del` reports `rowsAffected > 0`.
* revision C (`src/unnamed/part_001`, current): cached, string-valued client
  with the `Option` envelope (`Expired` only), generator hooks, and a
  background `Refresh` cycle; `Del` reports `true` on any successful
  execution of the delete statement.

Machine state (the in-memory cache plus a logical clock standing for
`time.Now()`) is threaded explicitly.  The backing store, the query
templating, and the codec are modelled as an explicit environment: each
failure point of the Go pipeline (template parse/render, `sql.Open`,
`QueryContext`/`ExecContext`, `RowsAffected`, `db.Close`) is a field that
either yields an error or succeeds, exactly mirroring the source's
control flow, including the `defer`red `multierr.Append(er, db.Close())`
merging of connection-release errors in revision C.
-/

set_option autoImplicit false

namespace Gokv

/-- Errors produced by the client or its collaborators.  `wrapKey k e` is
`fmt.Errorf("key:%s, error:%w", k, e)`; `merged a b` is
`multierr.Append` of two non-nil errors. -/
inductive Err where
  | emptyKey
  | tooManyValues
  | wrapKey (k : String) (e : Err)
  | storeE (n : Nat)
  | closeE (n : Nat)
  | codecE (n : Nat)
  | tmplE (n : Nat)
  | affectedE (n : Nat)
  | merged (a b : Err)
deriving DecidableEq, Repr

/-- `errors.Is`-style check: does `e` contain `target`, unwrapping
`fmt.Errorf %w` wrapping and `multierr` aggregation? -/
def containsErr (e target : Err) : Bool :=
  if e = target then true
  else
    match e with
    | .merged a b => containsErr a target || containsErr b target
    | .wrapKey _ i => containsErr i target
    | _ => false

/-- `containsErr` lifted to Go's nil-able errors. -/
def containsErrO : Option Err → Err → Bool
  | none, _ => false
  | some e, t => containsErr e t

/-- `multierr.Append` on nil-able errors. -/
def appendE : Option Err → Option Err → Option Err
  | none, e => e
  | some a, none => some a
  | some a, some b => some (.merged a b)

/-- `gokv.Option` as used by revision C (`src/store.go`, first file):
only an expiry instant.  `time.Time` is modelled as a natural number. -/
structure GOption where
  Expired : Nat
deriving DecidableEq, Repr

/-- The zero `gokv.Option{}`. -/
def zeroOpt : GOption := ⟨0⟩

/-- `gokv.OptionFn` (revision C): a mutator of the option under
construction, modelled functionally. -/
def GOptionFn := GOption → GOption

/-- `gokv.OptionFns.Apply` (`src/store.go` lines 15-24): run the mutators
in sequence over the accumulating option. -/
def applyFns (fns : List GOptionFn) (o : GOption) : GOption :=
  fns.foldl (fun acc f => f acc) o

/-- `gokv.GeneratorFn` (revision C): synthesizes `(value, option, error)`
for a missing key. -/
def GenFn := String → String × GOption × Option Err

/-- One backing-store row as scanned by `Get`: the value column and the
optional metadata column (`""` both for NULL and for a missing column
value, as `sql.NullString` yields). -/
structure Row where
  value : String
  optCol : String
deriving DecidableEq, Repr

/-- `sqlc.CacheValue` (`src/unnamed/part_001` lines 60-64). -/
structure CacheValue where
  Value : String
  Option : GOption
  UpdateTime : Nat
deriving DecidableEq, Repr

/-- The client's mutable state: the guarded cache map (association list;
Go map iteration order is unspecified, the list order is one admissible
order) and a logical clock for `time.Now()`. -/
structure St where
  cache : List (String × CacheValue)
  now : Nat
deriving DecidableEq, Repr

/-- Environment: the backing store's live rows plus the outcome of every
fallible collaborator call in the Go pipeline.  `dec`/`enc` are the codec
on the metadata column (`c.Codec.Unmarshal`/`Marshal`); `twoCols` records
whether the configured `GetSQL` yields a second (metadata) column. -/
structure Env where
  tab : List (String × Row)
  twoCols : Bool
  dec : String → Except Err GOption
  enc : GOption → String
  tmplGetErr : Option Err
  tmplSetErr : Option Err
  tmplDelErr : Option Err
  tmplKeysErr : Option Err
  openErr : Option Err
  getQErr : String → Option Err
  keysQErr : Option Err
  execSetErr : Option Err
  execDelErr : Option Err
  rowsAffectedErr : Option Err
  closeErr : Option Err

/-- First-match lookup in the cache. -/
def lookupC : List (String × CacheValue) → String → Option CacheValue
  | [], _ => none
  | e :: rest, k => if e.1 = k then some e.2 else lookupC rest k

/-- `delete(c.Cache, k)`. -/
def eraseC : List (String × CacheValue) → String → List (String × CacheValue)
  | [], _ => []
  | e :: rest, k => if e.1 = k then eraseC rest k else e :: eraseC rest k

/-- `c.Cache[k] = v`. -/
def insertC (c : List (String × CacheValue)) (k : String) (v : CacheValue) :
    List (String × CacheValue) :=
  (k, v) :: eraseC c k

/-- Rows of the live table whose key column equals `k`. -/
def rowsOf : List (String × Row) → String → List Row
  | [], _ => []
  | e :: rest, k => if e.1 = k then e.2 :: rowsOf rest k else rowsOf rest k

/-- Rows the backing store returns for `GetSQL` rendered with `k`. -/
def rowsFor (env : Env) (k : String) : List Row :=
  rowsOf env.tab k

/-- The unique row for `k`, when the key space is duplicate-free. -/
def tabRow (env : Env) (k : String) : Option Row :=
  (rowsOf env.tab k).head?

/-- Number of live rows the delete statement for `k` affects. -/
def countKey (tab : List (String × Row)) (k : String) : Nat :=
  (rowsOf tab k).length

/-- Soft delete: live rows for `k` disappear from the live set. -/
def eraseTab : List (String × Row) → String → List (String × Row)
  | [], _ => []
  | e :: rest, k => if e.1 = k then eraseTab rest k else e :: eraseTab rest k

/-- Effect of a successful `SetSQL` execution on the live rows: the row
for `k` now holds `v` and the marshalled option. -/
def setTab (tab : List (String × Row)) (k v oData : String) : List (String × Row) :=
  (k, ⟨v, oData⟩) :: eraseTab tab k

/-- Scanning one result row (`src/unnamed/part_001` lines 277-295):
`v` takes the value column; the metadata column, when the query has one
and it is non-empty, is unmarshalled into the option. -/
def scanRow (env : Env) (r : Row) : Except Err (String × GOption) :=
  if env.twoCols && !(r.optCol == "") then
    match env.dec r.optCol with
    | .error e => .error e
    | .ok o => .ok (r.value, o)
  else .ok (r.value, zeroOpt)

/-- Result of revision C's `Client.Set`. -/
structure SetOut where
  err : Option Err
  accessed : Bool
  st : St
  env : Env

/-- Result of revision C's `Client.Get`. -/
structure GetOut where
  found : Bool
  v : String
  opt : GOption
  err : Option Err
  accessed : Bool
  st : St
  env : Env

/-- Result of revision C's `Client.Del`. -/
structure DelOut where
  found : Bool
  err : Option Err
  accessed : Bool
  st : St
  env : Env

/-- `Client.Set` of revision C (`src/unnamed/part_001` lines 167-220).
Checks the key, folds the option mutators over `gokv.Option{}`, renders
`SetSQL`, executes it, then overwrites the cache entry; the deferred
`db.Close` error is merged into the result after the cache write.
(Marshalling the option with the JSON codec cannot fail and is modelled
by the total `env.enc`.) -/
def sqlcSet (env : Env) (st : St) (k v : String) (fns : List GOptionFn) : SetOut :=
  if k = "" then ⟨some .emptyKey, false, st, env⟩
  else
    let opt := applyFns fns zeroOpt
    match env.tmplSetErr with
    | some e => ⟨some e, false, st, env⟩
    | none =>
      match env.openErr with
      | some e => ⟨some e, true, st, env⟩
      | none =>
        match env.execSetErr with
        | some e => ⟨appendE (some e) env.closeErr, true, st, env⟩
        | none =>
          ⟨env.closeErr, true,
            ⟨insertC st.cache k ⟨v, opt, st.now⟩, st.now + 1⟩,
            { env with tab := setTab env.tab k v (env.enc opt) }⟩

/-- `Client.Get` of revision C (`src/unnamed/part_001` lines 228-322).
Key check, cache fast path, then the templated read; zero rows consult
the generator hook (write-through via `Set`), one row populates the
cache, a second row aborts with the wrapped too-many-values error.  All
returns past `sql.Open` merge the deferred `db.Close` error. -/
def sqlcGet (env : Env) (st : St) (k : String) (fn : Option GenFn) : GetOut :=
  if k = "" then ⟨false, "", zeroOpt, some .emptyKey, false, st, env⟩
  else
    match lookupC st.cache k with
    | some cv => ⟨true, cv.Value, cv.Option, none, false, st, env⟩
    | none =>
      match env.tmplGetErr with
      | some e => ⟨false, "", zeroOpt, some e, false, st, env⟩
      | none =>
        match env.openErr with
        | some e => ⟨false, "", zeroOpt, some e, true, st, env⟩
        | none =>
          match env.getQErr k with
          | some e => ⟨false, "", zeroOpt, appendE (some e) env.closeErr, true, st, env⟩
          | none =>
            match rowsFor env k with
            | [] =>
              match fn with
              | none => ⟨false, "", zeroOpt, env.closeErr, true, st, env⟩
              | some f =>
                match f k with
                | (_, _, some e) =>
                  ⟨false, "", zeroOpt, appendE (some e) env.closeErr, true, st, env⟩
                | (v2, newOpt, none) =>
                  let s := sqlcSet env st k v2 [fun _ => newOpt]
                  match s.err with
                  | some e =>
                    ⟨false, "", zeroOpt, appendE (some e) env.closeErr, true, s.st, s.env⟩
                  | none => ⟨true, v2, newOpt, env.closeErr, true, s.st, s.env⟩
            | [r] =>
              match scanRow env r with
              | .error e => ⟨false, "", zeroOpt, appendE (some e) env.closeErr, true, st, env⟩
              | .ok (v, o) =>
                ⟨true, v, o, env.closeErr, true,
                  ⟨insertC st.cache k ⟨v, o, st.now⟩, st.now + 1⟩, env⟩
            | r :: _ :: _ =>
              match scanRow env r with
              | .error e => ⟨false, "", zeroOpt, appendE (some e) env.closeErr, true, st, env⟩
              | .ok (_, o) =>
                ⟨false, "", o, appendE (some (.wrapKey k .tooManyValues)) env.closeErr,
                  true, st, env⟩

/-- `Client.Del` of revision C (`src/unnamed/part_001` lines 327-367).
Key check, templated delete execution, and only then the cache eviction;
the result of a successful execution is `found = true` unconditionally
(no `RowsAffected` inspection), with the deferred close error merged. -/
def sqlcDel (env : Env) (st : St) (k : String) : DelOut :=
  if k = "" then ⟨false, some .emptyKey, false, st, env⟩
  else
    match env.tmplDelErr with
    | some e => ⟨false, some e, false, st, env⟩
    | none =>
      match env.openErr with
      | some e => ⟨false, some e, true, st, env⟩
      | none =>
        match env.execDelErr with
        | some e => ⟨false, appendE (some e) env.closeErr, true, st, env⟩
        | none =>
          ⟨true, env.closeErr, true,
            ⟨eraseC st.cache k, st.now⟩,
            { env with tab := eraseTab env.tab k }⟩

/-- `Client.Keys` of revision C (`src/unnamed/part_001` lines 117-162):
first column of every row of `KeysSQL`; the deferred close error is
merged even into a successful scan, turning it into a failure. -/
def sqlcKeys (env : Env) : Except Err (List String) :=
  match env.tmplKeysErr with
  | some e => .error e
  | none =>
    match env.openErr with
    | some e => .error e
    | none =>
      match env.keysQErr with
      | some e =>
        match env.closeErr with
        | none => .error e
        | some c => .error (.merged e c)
      | none =>
        match env.closeErr with
        | some c => .error c
        | none => .ok (env.tab.map Prod.fst)

/-- Step 4 of `Client.Refresh` (`src/unnamed/part_001` lines 103-111):
for each still-live cached key, evict it and read it back through `Get`;
the first read error aborts the remaining iterations. -/
def refreshLoop : Env → List String → St → Option Err × St × Env
  | env, [], st => (none, st, env)
  | env, k :: ks, st =>
    let g := sqlcGet env ⟨eraseC st.cache k, st.now⟩ k none
    match g.err with
    | some e => (some e, g.st, g.env)
    | none => refreshLoop g.env ks g.st

/-- `Client.Refresh` (`src/unnamed/part_001` lines 80-114): fetch the
live key set, drop cached keys outside it, then re-fetch the remaining
cached keys one by one. -/
def sqlcRefresh (env : Env) (st : St) : Option Err × St × Env :=
  match sqlcKeys env with
  | .error e => (some e, st, env)
  | .ok keys =>
    let cache1 := st.cache.filter (fun e => keys.contains e.1)
    refreshLoop env (cache1.map Prod.fst) ⟨cache1, st.now⟩

/-- `gokv.Option` as used by revision B (`src/store.go`, second file):
an expiry duration (`time.Duration`, an integer) and a string-formatted
creation timestamp. -/
structure OptionB where
  Expired : Int
  CreateTime : String
deriving DecidableEq, Repr

/-- The zero `gokv.Option{}` of revision B. -/
def zeroOptB : OptionB := ⟨0, ""⟩

/-- Revision B's `OptionFn` mutator. -/
def OptionFnB := OptionB → OptionB

/-- `gokv.OptionFns.Apply` over revision B options. -/
def applyFnsB (fns : List OptionFnB) (o : OptionB) : OptionB :=
  fns.foldl (fun acc f => f acc) o

/-- Result of revision B's `Client.Set`: the error, and, when the
execution reached the store, the `(marshalled value, option)` pair the
rendered `SetSQL` wrote. -/
structure SetOutB where
  err : Option Err
  written : Option (String × OptionB)
deriving Repr

/-- `Client.Set` of revision B (`src/unnamed/part_000` lines 430-479).
After the key check and value marshalling (modelled pre-marshalled as
`data`; the codec is external), the option is built by folding the
mutators over the zero option and `CreateTime` is then assigned the
current formatted time (`now`) unconditionally, line 442.  Revision B
releases the connection with a plain `defer db.Close()`, so no close
error is merged. -/
def sqlcSetB (env : Env) (k data : String) (fns : List OptionFnB) (now : String) : SetOutB :=
  if k = "" then ⟨some .emptyKey, none⟩
  else
    let opt := applyFnsB fns zeroOptB
    let opt := { opt with CreateTime := now }
    match env.tmplSetErr with
    | some e => ⟨some e, none⟩
    | none =>
      match env.openErr with
      | some e => ⟨some e, none⟩
      | none =>
        match env.execSetErr with
        | some e => ⟨some e, none⟩
        | none => ⟨none, some (data, opt)⟩

/-- Result of revision B's `Client.Del`. -/
structure DelOutB where
  found : Bool
  err : Option Err
  env : Env

/-- `Client.Del` of revision B (`src/unnamed/part_000` lines 569-605).
Key check, templated delete, then `result.RowsAffected()`; `found` is
`rowsAffected > 0`.  The soft delete removes the key's live rows, so the
affected count of the next call drops to zero.  Plain `defer db.Close()`:
no close-error merging. -/
def sqlcDelB (env : Env) (k : String) : DelOutB :=
  if k = "" then ⟨false, some .emptyKey, env⟩
  else
    match env.tmplDelErr with
    | some e => ⟨false, some e, env⟩
    | none =>
      match env.openErr with
      | some e => ⟨false, some e, env⟩
      | none =>
        match env.execDelErr with
        | some e => ⟨false, some e, env⟩
        | none =>
          let affected := countKey env.tab k
          let env2 := { env with tab := eraseTab env.tab k }
          match env.rowsAffectedErr with
          | some e => ⟨false, some e, env2⟩
          | none => ⟨decide (0 < affected), none, env2⟩

/-- `Client.Del` of revision A (`src/unnamed/part_000` lines 298-311):
the cache entry is evicted first and `nil` is returned unconditionally;
the backing delete runs in a deferred call whose error is logged and
swallowed (on its success the live rows disappear). -/
def sqlcDelA (env : Env) (st : St) (k : String) : Option Err × St × Env :=
  let st2 : St := ⟨eraseC st.cache k, st.now⟩
  let env2 :=
    if env.tmplDelErr.isNone && env.openErr.isNone && env.execDelErr.isNone then
      { env with tab := eraseTab env.tab k }
    else env
  (none, st2, env2)

/-! ### Basic lemmas about the cache and table maps -/

theorem lookupC_eraseC_self (c : List (String × CacheValue)) (k : String) :
    lookupC (eraseC c k) k = none := by
  induction c with
  | nil => rfl
  | cons e rest ih =>
    by_cases h : e.1 = k
    · simpa [eraseC, h] using ih
    · simpa [eraseC, lookupC, h] using ih

theorem lookupC_eraseC_ne (c : List (String × CacheValue)) {k k' : String} (h : k' ≠ k) :
    lookupC (eraseC c k') k = lookupC c k := by
  induction c with
  | nil => rfl
  | cons e rest ih =>
    by_cases he : e.1 = k'
    · have hek : ¬ e.1 = k := by rw [he]; exact h
      simp [eraseC, lookupC, he, hek, h, ih]
    · by_cases hk : e.1 = k
      · simp [eraseC, lookupC, he, hk, h.symm]
      · simp [eraseC, lookupC, he, hk, ih]

theorem lookupC_insertC_self (c : List (String × CacheValue)) (k : String) (v : CacheValue) :
    lookupC (insertC c k v) k = some v := by
  simp [insertC, lookupC]

theorem lookupC_insertC_ne (c : List (String × CacheValue)) (v : CacheValue)
    {k k' : String} (h : k' ≠ k) :
    lookupC (insertC c k' v) k = lookupC c k := by
  simp [insertC, lookupC, h, lookupC_eraseC_ne c h]

theorem lookupC_mem {c : List (String × CacheValue)} {k : String} {v : CacheValue}
    (h : lookupC c k = some v) : (k, v) ∈ c := by
  induction c with
  | nil => simp [lookupC] at h
  | cons e rest ih =>
    cases e with
    | mk a b =>
      by_cases he : a = k
      · subst he
        simp [lookupC] at h
        subst h
        exact List.mem_cons_self _ _
      · simp [lookupC, he] at h
        exact List.mem_cons_of_mem _ (ih h)

theorem mem_keys_of_lookupC {c : List (String × CacheValue)} {k : String} {v : CacheValue}
    (h : lookupC c k = some v) : k ∈ c.map Prod.fst := by
  exact List.mem_map.mpr ⟨(k, v), lookupC_mem h, rfl⟩

theorem lookupC_filter_none {p : String × CacheValue → Bool}
    (c : List (String × CacheValue)) (k : String) (h : ∀ v, p (k, v) = false) :
    lookupC (c.filter p) k = none := by
  induction c with
  | nil => rfl
  | cons e rest ih =>
    rw [List.filter_cons]
    by_cases hp : p e = true
    · by_cases he : e.1 = k
      · have : p e = false := by
          cases e with
          | mk a b => simp only at he; rw [he]; exact h b
        rw [this] at hp; cases hp
      · simpa [hp, lookupC, he] using ih
    · simpa [hp] using ih

theorem lookupC_filter_some {p : String × CacheValue → Bool}
    {c : List (String × CacheValue)} {k : String} {v : CacheValue}
    (h : lookupC c k = some v) (hp : p (k, v) = true) :
    lookupC (c.filter p) k = some v := by
  induction c with
  | nil => simp [lookupC] at h
  | cons e rest ih =>
    rw [List.filter_cons]
    by_cases he : e.1 = k
    · simp [lookupC, he] at h
      have hpe : p e = true := by
        cases e with
        | mk a b => simp only at he; subst he; simp only at h; rw [h]; exact hp
      simp [hpe, lookupC, he, h]
    · simp [lookupC, he] at h
      by_cases hpe : p e = true
      · simpa [hpe, lookupC, he] using ih h
      · simpa [hpe] using ih h

theorem rowsOf_eraseTab_self (tab : List (String × Row)) (k : String) :
    rowsOf (eraseTab tab k) k = [] := by
  induction tab with
  | nil => rfl
  | cons e rest ih =>
    by_cases h : e.1 = k
    · simpa [eraseTab, h] using ih
    · simpa [eraseTab, rowsOf, h] using ih

theorem countKey_eraseTab_self (tab : List (String × Row)) (k : String) :
    countKey (eraseTab tab k) k = 0 := by
  simp [countKey, rowsOf_eraseTab_self]

theorem rowsOf_eq_nil_of_not_mem {tab : List (String × Row)} {k : String}
    (h : k ∉ tab.map Prod.fst) : rowsOf tab k = [] := by
  induction tab with
  | nil => rfl
  | cons e rest ih =>
    cases e with
    | mk a b =>
      rw [List.map_cons] at h
      by_cases he : a = k
      · subst he
        exact absurd (List.mem_cons_self _ _) h
      · simpa [rowsOf, he] using ih (fun hm => h (List.mem_cons_of_mem _ hm))

/-- A key of a duplicate-free live table has exactly one row. -/
theorem rowsOf_singleton_of_nodup {tab : List (String × Row)}
    (hnd : (tab.map Prod.fst).Nodup) {k : String} (hk : k ∈ tab.map Prod.fst) :
    ∃ r, rowsOf tab k = [r] := by
  induction tab with
  | nil => simp at hk
  | cons e rest ih =>
    cases e with
    | mk a b =>
      rw [List.map_cons, List.nodup_cons] at hnd
      rw [List.map_cons] at hk
      by_cases he : a = k
      · subst he
        have h0 : rowsOf rest a = [] := rowsOf_eq_nil_of_not_mem hnd.1
        exact ⟨b, by simp [rowsOf, h0]⟩
      · rcases List.mem_cons.mp hk with h1 | h1
        · exact absurd h1.symm he
        · simpa [rowsOf, he] using ih hnd.2 h1

theorem containsErr_self (e : Err) : containsErr e e = true := by
  unfold containsErr
  rw [if_pos rfl]

theorem containsErr_wrapKey (k : String) (e : Err) : containsErr (.wrapKey k e) e = true := by
  unfold containsErr
  by_cases h : Err.wrapKey k e = e
  · rw [if_pos h]
  · rw [if_neg h]
    exact containsErr_self e

theorem containsErrO_appendE_of {e t : Err} (h : containsErr e t = true) (c : Option Err) :
    containsErrO (appendE (some e) c) t = true := by
  cases c with
  | none => simpa [appendE, containsErrO] using h
  | some c =>
    simp only [appendE, containsErrO]
    unfold containsErr
    by_cases hm : Err.merged e c = t
    · rw [if_pos hm]
    · rw [if_neg hm]
      simp [h]

theorem containsErrO_appendE_left (e : Err) (c : Option Err) :
    containsErrO (appendE (some e) c) e = true :=
  containsErrO_appendE_of (containsErr_self e) c

/-! ### Inverting a successful `Set` of revision C -/

/-- A `Set` that reports `nil` went through the whole pipeline: the key is
non-empty, template rendering, connection, execution and release all
succeeded, and the cache and table were updated. -/
theorem sqlcSet_ok {env : Env} {st : St} {k v : String} {fns : List GOptionFn}
    (h : (sqlcSet env st k v fns).err = none) :
    k ≠ "" ∧ env.tmplSetErr = none ∧ env.openErr = none ∧ env.execSetErr = none ∧
      env.closeErr = none ∧
      sqlcSet env st k v fns =
        ⟨none, true, ⟨insertC st.cache k ⟨v, applyFns fns zeroOpt, st.now⟩, st.now + 1⟩,
          { env with tab := setTab env.tab k v (env.enc (applyFns fns zeroOpt)) }⟩ := by
  by_cases hk : k = ""
  · rw [hk] at h
    simp [sqlcSet] at h
  · cases ht : env.tmplSetErr with
    | some e => simp [sqlcSet, hk, ht] at h
    | none =>
      cases ho : env.openErr with
      | some e => simp [sqlcSet, hk, ht, ho] at h
      | none =>
        cases hx : env.execSetErr with
        | some e =>
          simp only [sqlcSet, hk, ht, ho, hx, if_neg hk] at h
          cases hc : env.closeErr <;> simp [hc, appendE] at h
        | none =>
          cases hc : env.closeErr with
          | some c => simp [sqlcSet, hk, ht, ho, hx, hc] at h
          | none =>
            exact ⟨hk, rfl, rfl, rfl, rfl, by simp [sqlcSet, hk, ht, ho, hx, hc]⟩

/-! ### Concrete environments and states used by witnesses and
counterexamples -/

/-- Environment in which every collaborator call succeeds and the live
table is empty. -/
def envOk : Env where
  tab := []
  twoCols := false
  dec := fun _ => .ok zeroOpt
  enc := fun _ => ""
  tmplGetErr := none
  tmplSetErr := none
  tmplDelErr := none
  tmplKeysErr := none
  openErr := none
  getQErr := fun _ => none
  keysQErr := none
  execSetErr := none
  execDelErr := none
  rowsAffectedErr := none
  closeErr := none

/-- The empty client state. -/
def stEmpty : St := ⟨[], 0⟩

/-! ### C1: Set/Get round trip through the cache -/

/-- C1: if `Set(k, v)` returns nil, the immediately following `Get(k)`
returns `found = true`, the same value `v` and a nil error, and is served
from the cache with no backing-store access. -/
theorem set_then_get_roundtrip (env : Env) (st : St) (k v : String) (fns : List GOptionFn)
    (h : (sqlcSet env st k v fns).err = none) :
    (sqlcGet (sqlcSet env st k v fns).env (sqlcSet env st k v fns).st k none).found = true ∧
    (sqlcGet (sqlcSet env st k v fns).env (sqlcSet env st k v fns).st k none).v = v ∧
    (sqlcGet (sqlcSet env st k v fns).env (sqlcSet env st k v fns).st k none).err = none ∧
    (sqlcGet (sqlcSet env st k v fns).env (sqlcSet env st k v fns).st k none).accessed = false := by
  obtain ⟨hk, ht, ho, hx, hc, heq⟩ := sqlcSet_ok h
  rw [heq]
  simp [sqlcGet, hk, lookupC_insertC_self]

theorem set_then_get_roundtrip_witness :
    (sqlcSet envOk stEmpty "k1" "v1" []).err = none ∧
    ((sqlcGet (sqlcSet envOk stEmpty "k1" "v1" []).env (sqlcSet envOk stEmpty "k1" "v1" []).st
        "k1" none).found = true ∧
      (sqlcGet (sqlcSet envOk stEmpty "k1" "v1" []).env (sqlcSet envOk stEmpty "k1" "v1" []).st
        "k1" none).v = "v1" ∧
      (sqlcGet (sqlcSet envOk stEmpty "k1" "v1" []).env (sqlcSet envOk stEmpty "k1" "v1" []).st
        "k1" none).err = none ∧
      (sqlcGet (sqlcSet envOk stEmpty "k1" "v1" []).env (sqlcSet envOk stEmpty "k1" "v1" []).st
        "k1" none).accessed = false) :=
  ⟨rfl, set_then_get_roundtrip envOk stEmpty "k1" "v1" [] rfl⟩

/-! ### C8: the empty key is rejected by all three operations -/

/-- C8: for the empty key, `Get`, `Set` and `Del` of the revision C
client fail with the empty-key error, with no backing-store access and
no change to the cache or table. -/
theorem empty_key_rejected (env : Env) (st : St) (fn : Option GenFn) (v : String)
    (fns : List GOptionFn) :
    sqlcGet env st "" fn = ⟨false, "", zeroOpt, some .emptyKey, false, st, env⟩ ∧
    sqlcSet env st "" v fns = ⟨some .emptyKey, false, st, env⟩ ∧
    sqlcDel env st "" = ⟨false, some .emptyKey, false, st, env⟩ :=
  ⟨rfl, rfl, rfl⟩

/-! ### C10: Set can fail with the release error after the cache write -/

/-- C10: when the backing-store write executes successfully, `Set`
updates the cache entry before returning, and the deferred release error
is merged afterwards, so `Set` can return a non-nil error while the
cache already holds the new value. -/
theorem set_close_error_cache_updated (env : Env) (st : St) (k v : String)
    (fns : List GOptionFn) (e : Err) (hk : k ≠ "") (ht : env.tmplSetErr = none)
    (ho : env.openErr = none) (hx : env.execSetErr = none) (hc : env.closeErr = some e) :
    (sqlcSet env st k v fns).err = some e ∧
    lookupC (sqlcSet env st k v fns).st.cache k = some ⟨v, applyFns fns zeroOpt, st.now⟩ := by
  simp [sqlcSet, hk, ht, ho, hx, hc, lookupC_insertC_self]

/-- Everything succeeds except the connection release. -/
def envCloseFail : Env := { envOk with closeErr := some (.closeE 0) }

theorem set_close_error_cache_updated_witness :
    (sqlcSet envCloseFail stEmpty "a" "x" []).err = some (.closeE 0) ∧
    lookupC (sqlcSet envCloseFail stEmpty "a" "x" []).st.cache "a" =
      some ⟨"x", applyFns [] zeroOpt, stEmpty.now⟩ :=
  set_close_error_cache_updated envCloseFail stEmpty "a" "x" [] (.closeE 0)
    (by decide) rfl rfl rfl rfl

/-! ### C7: when Del mutates the cache -/

/-- C7 (amended): the revision C `Del` evicts the cache entry only after
the delete statement has executed successfully — any failure of the key
check, template, connection or execution leaves the cache untouched —
but after a successful execution a failing connection release makes
`Del` return `(true, non-nil error)` with the entry already evicted, so
a non-nil error alone does not imply the cache is unchanged. -/
theorem del_cache_mutation_discipline (env : Env) (st : St) (k : String) :
    ((sqlcDel env st k).st.cache ≠ st.cache →
      k ≠ "" ∧ env.tmplDelErr = none ∧ env.openErr = none ∧ env.execDelErr = none) ∧
    (∀ e : Err, k ≠ "" → env.tmplDelErr = none → env.openErr = none →
      env.execDelErr = none → env.closeErr = some e →
      (sqlcDel env st k).found = true ∧ (sqlcDel env st k).err = some e ∧
        (sqlcDel env st k).st.cache = eraseC st.cache k) := by
  constructor
  · intro hne
    by_cases hk : k = ""
    · rw [hk] at hne
      simp [sqlcDel] at hne
    · cases ht : env.tmplDelErr with
      | some e => simp [sqlcDel, hk, ht] at hne
      | none =>
        cases ho : env.openErr with
        | some e => simp [sqlcDel, hk, ht, ho] at hne
        | none =>
          cases hx : env.execDelErr with
          | some e => simp [sqlcDel, hk, ht, ho, hx] at hne
          | none => exact ⟨hk, rfl, rfl, rfl⟩
  · intro e hk ht ho hx hc
    simp [sqlcDel, hk, ht, ho, hx, hc]

/-- State holding one cached key `"a"`. -/
def stOneA : St := ⟨[("a", ⟨"x", zeroOpt, 0⟩)], 1⟩

/-- C7 counterexample: with a failing connection release, `Del("a")`
returns a non-nil error although the cache entry for `"a"` has been
evicted — refuting "a non-nil error implies the cache is unchanged". -/
theorem del_error_with_cache_mutation_ce :
    (sqlcDel envCloseFail stOneA "a").err = some (.closeE 0) ∧
    (sqlcDel envCloseFail stOneA "a").st.cache ≠ stOneA.cache := by
  decide

theorem del_cache_mutation_discipline_witness :
    (sqlcDel envCloseFail stOneA "a").found = true ∧
    (sqlcDel envCloseFail stOneA "a").err = some (.closeE 0) ∧
    (sqlcDel envCloseFail stOneA "a").st.cache = eraseC stOneA.cache "a" :=
  (del_cache_mutation_discipline envCloseFail stOneA "a").2 (.closeE 0)
    (by decide) rfl rfl rfl rfl

/-! ### C2: what `found` means for Del -/

/-- C2 (amended): the revision B `Del` reports
`found = (rowsAffected > 0)` and a second delete of the same key returns
`(false, nil)`; the revision C `Del` instead returns `(true, nil)`
whenever the delete statement executes and the connection is released
without error, regardless of the affected-row count. -/
theorem del_found_semantics (env : Env) (k : String) (hk : k ≠ "")
    (ht : env.tmplDelErr = none) (ho : env.openErr = none) (hx : env.execDelErr = none)
    (hr : env.rowsAffectedErr = none) (hc : env.closeErr = none) :
    ((sqlcDelB env k).found = decide (0 < countKey env.tab k) ∧
      (sqlcDelB env k).err = none ∧
      (sqlcDelB ((sqlcDelB env k).env) k).found = false ∧
      (sqlcDelB ((sqlcDelB env k).env) k).err = none) ∧
    (∀ st : St, (sqlcDel env st k).found = true ∧ (sqlcDel env st k).err = none) := by
  refine ⟨?_, ?_⟩
  · simp [sqlcDelB, hk, ht, ho, hx, hr, countKey_eraseTab_self]
  · intro st
    simp [sqlcDel, hk, ht, ho, hx, hc]

/-- C2 counterexample: the revision C `Del` on a key with zero live rows
(zero affected rows) still reports `found = true`, refuting
"`found = true` iff the delete affected at least one row". -/
theorem del_found_ignores_affected_ce :
    (sqlcDel envOk stEmpty "a").found = true ∧ countKey envOk.tab "a" = 0 ∧
    (sqlcDel envOk stEmpty "a").err = none := by
  decide

/-- One live row for `"a"`. -/
def envOneA : Env := { envOk with tab := [("a", ⟨"x", ""⟩)] }

/-! ### Evaluating a cache-missing `Get` during Refresh -/

/-- Scanning cannot fail when the codec decodes every string. -/
theorem scanRow_ok_of_decTotal (env : Env) (hdec : ∀ s, ∃ o, env.dec s = .ok o) (r : Row) :
    ∃ v o, scanRow env r = .ok (v, o) := by
  unfold scanRow
  by_cases h2 : (env.twoCols && !(r.optCol == "")) = true
  · obtain ⟨o, hoo⟩ := hdec r.optCol
    refine ⟨r.value, o, ?_⟩
    rw [if_pos h2, hoo]
  · exact ⟨r.value, zeroOpt, by rw [if_neg h2]⟩

/-- A hook-less `Get` on a cache-missing key with exactly one live row
repopulates the cache with the scanned value, stamped at the current
clock. -/
theorem sqlcGet_miss_single (env : Env) (st : St) (k : String) (r : Row)
    (hk : k ≠ "") (hcm : lookupC st.cache k = none)
    (ht : env.tmplGetErr = none) (ho : env.openErr = none) (hq : env.getQErr k = none)
    (hc : env.closeErr = none) (hrows : rowsFor env k = [r])
    {v : String} {o : GOption} (hs : scanRow env r = .ok (v, o)) :
    sqlcGet env st k none =
      ⟨true, v, o, none, true, ⟨insertC st.cache k ⟨v, o, st.now⟩, st.now + 1⟩, env⟩ := by
  simp [sqlcGet, hk, hcm, ht, ho, hq, hrows, hs, hc]

/-- A hook-less `Get` on a cache-missing key whose read query fails
returns that error and leaves the state alone. -/
theorem sqlcGet_miss_qerr (env : Env) (st : St) (k : String) (e : Err)
    (hk : k ≠ "") (hcm : lookupC st.cache k = none)
    (ht : env.tmplGetErr = none) (ho : env.openErr = none)
    (hq : env.getQErr k = some e) (hc : env.closeErr = none) :
    sqlcGet env st k none = ⟨false, "", zeroOpt, some e, true, st, env⟩ := by
  simp [sqlcGet, hk, hcm, ht, ho, hq, hc, appendE]

/-- Invariant of the step-4 loop under an error-free environment: the
loop completes, every listed key ends up freshly fetched (timestamp at
or after the starting clock), and every other key's entry is untouched. -/
theorem refreshLoop_ok (env : Env)
    (ht : env.tmplGetErr = none) (ho : env.openErr = none) (hc : env.closeErr = none)
    (hq : ∀ k, env.getQErr k = none) (hdec : ∀ s, ∃ o, env.dec s = .ok o) :
    ∀ (ks : List String) (st : St),
      (∀ k ∈ ks, k ≠ "" ∧ ∃ r, rowsFor env k = [r]) →
      (refreshLoop env ks st).1 = none ∧
      (refreshLoop env ks st).2.2 = env ∧
      st.now ≤ (refreshLoop env ks st).2.1.now ∧
      (∀ k, k ∉ ks → lookupC (refreshLoop env ks st).2.1.cache k = lookupC st.cache k) ∧
      (∀ k, k ∈ ks → ∃ r v o t, rowsFor env k = [r] ∧ scanRow env r = .ok (v, o) ∧
        lookupC (refreshLoop env ks st).2.1.cache k = some ⟨v, o, t⟩ ∧ st.now ≤ t) := by
  intro ks
  induction ks with
  | nil =>
    intro st _
    exact ⟨rfl, rfl, le_refl _, fun k _ => rfl, fun k hk => absurd hk (List.not_mem_nil k)⟩
  | cons k0 ks ih =>
    intro st hks
    obtain ⟨hk0, r, hr⟩ := hks k0 (List.mem_cons_self _ _)
    obtain ⟨v, o, hs⟩ := scanRow_ok_of_decTotal env hdec r
    have hg := sqlcGet_miss_single env ⟨eraseC st.cache k0, st.now⟩ k0 r hk0
      (lookupC_eraseC_self _ _) ht ho (hq k0) hc hr hs
    have hstep : refreshLoop env (k0 :: ks) st =
        refreshLoop env ks ⟨insertC (eraseC st.cache k0) k0 ⟨v, o, st.now⟩, st.now + 1⟩ := by
      simp [refreshLoop, hg]
    rw [hstep]
    obtain ⟨h1, h2, h3, h4, h5⟩ := ih ⟨insertC (eraseC st.cache k0) k0 ⟨v, o, st.now⟩, st.now + 1⟩
      (fun k hk => hks k (List.mem_cons_of_mem _ hk))
    refine ⟨h1, h2, le_trans (Nat.le_succ _) h3, ?_, ?_⟩
    · intro k hk
      have hkk0 : k ≠ k0 := fun hh => hk (by rw [hh]; exact List.mem_cons_self _ _)
      rw [h4 k (fun hh => hk (List.mem_cons_of_mem _ hh))]
      show lookupC (insertC (eraseC st.cache k0) k0 ⟨v, o, st.now⟩) k = lookupC st.cache k
      rw [lookupC_insertC_ne _ _ (Ne.symm hkk0), lookupC_eraseC_ne _ (Ne.symm hkk0)]
    · intro k hk
      rcases List.mem_cons.mp hk with hh | hh
      · subst hh
        by_cases hmem : k ∈ ks
        · obtain ⟨r2, v2, o2, t2, hr2, hs2, hl2, hle2⟩ := h5 k hmem
          exact ⟨r2, v2, o2, t2, hr2, hs2, hl2, le_trans (Nat.le_succ _) hle2⟩
        · refine ⟨r, v, o, st.now, hr, hs, ?_, le_refl _⟩
          rw [h4 k hmem]
          exact lookupC_insertC_self _ _ _
      · obtain ⟨r2, v2, o2, t2, hr2, hs2, hl2, hle2⟩ := h5 k hh
        exact ⟨r2, v2, o2, t2, hr2, hs2, hl2, le_trans (Nat.le_succ _) hle2⟩

/-! ### C4: one Refresh cycle converges the cache on the live key set -/

/-- C4: under an error-free environment whose live table has one row per
key, one `Refresh` cycle completes, evicts every cached key absent from
the live key set, and leaves every cached live key re-fetched through
`Get`: its entry holds the backing store's current scanned row and an
`UpdateTime` at least its previous one. -/
theorem refresh_converges (env : Env) (st : St)
    (ht : env.tmplGetErr = none) (ho : env.openErr = none) (hc : env.closeErr = none)
    (hq : ∀ k, env.getQErr k = none) (hdec : ∀ s, ∃ o, env.dec s = .ok o)
    (htk : env.tmplKeysErr = none) (hkq : env.keysQErr = none)
    (hnd : (env.tab.map Prod.fst).Nodup)
    (hne : ∀ e ∈ st.cache, e.1 ≠ "")
    (hwf : ∀ e ∈ st.cache, e.2.UpdateTime ≤ st.now) :
    (sqlcRefresh env st).1 = none ∧
    (∀ k cv, lookupC st.cache k = some cv →
      (k ∉ env.tab.map Prod.fst → lookupC (sqlcRefresh env st).2.1.cache k = none) ∧
      (k ∈ env.tab.map Prod.fst → ∃ cv2,
        lookupC (sqlcRefresh env st).2.1.cache k = some cv2 ∧
        (∃ r, rowsFor env k = [r] ∧ scanRow env r = .ok (cv2.Value, cv2.Option)) ∧
        cv.UpdateTime ≤ cv2.UpdateTime)) := by
  have hkeys : sqlcKeys env = .ok (env.tab.map Prod.fst) := by
    simp [sqlcKeys, htk, ho, hkq, hc]
  have hrw : sqlcRefresh env st =
      refreshLoop env
        ((st.cache.filter (fun e => (env.tab.map Prod.fst).contains e.1)).map Prod.fst)
        ⟨st.cache.filter (fun e => (env.tab.map Prod.fst).contains e.1), st.now⟩ := by
    simp [sqlcRefresh, hkeys]
  have hksgood : ∀ k ∈ (st.cache.filter
      (fun e => (env.tab.map Prod.fst).contains e.1)).map Prod.fst,
      k ≠ "" ∧ ∃ r, rowsFor env k = [r] := by
    intro k hk
    obtain ⟨e, he, hek⟩ := List.mem_map.mp hk
    have hmem := (List.mem_filter.mp he).1
    have hpred := (List.mem_filter.mp he).2
    refine ⟨by rw [← hek]; exact hne e hmem, ?_⟩
    have hkin : k ∈ env.tab.map Prod.fst := by
      rw [← hek]
      exact List.elem_iff.mp hpred
    exact rowsOf_singleton_of_nodup hnd hkin
  obtain ⟨h1, _, _, h4, h5⟩ := refreshLoop_ok env ht ho hc hq hdec
    ((st.cache.filter (fun e => (env.tab.map Prod.fst).contains e.1)).map Prod.fst)
    ⟨st.cache.filter (fun e => (env.tab.map Prod.fst).contains e.1), st.now⟩ hksgood
  rw [hrw]
  refine ⟨h1, ?_⟩
  intro k cv hcv
  constructor
  · intro hknot
    have hcontains : ∀ v2 : CacheValue,
        (fun e : String × CacheValue => (env.tab.map Prod.fst).contains e.1) (k, v2) = false := by
      intro v2
      simp only
      cases hcc : (env.tab.map Prod.fst).contains k with
      | false => rfl
      | true => exact absurd (List.elem_iff.mp hcc) hknot
    have hknotin : k ∉ (st.cache.filter
        (fun e => (env.tab.map Prod.fst).contains e.1)).map Prod.fst := by
      intro hk2
      obtain ⟨e, he, hek⟩ := List.mem_map.mp hk2
      have hpred := (List.mem_filter.mp he).2
      rw [hek] at hpred
      exact absurd (List.elem_iff.mp hpred) hknot
    rw [h4 k hknotin]
    exact lookupC_filter_none _ _ hcontains
  · intro hkin
    have hpred : (fun e : String × CacheValue =>
        (env.tab.map Prod.fst).contains e.1) (k, cv) = true := by
      simp only
      exact List.elem_iff.mpr hkin
    have hk1 : lookupC (st.cache.filter
        (fun e => (env.tab.map Prod.fst).contains e.1)) k = some cv :=
      lookupC_filter_some hcv hpred
    obtain ⟨r, v, o, t, hr, hs, hl, hle⟩ := h5 k (mem_keys_of_lookupC hk1)
    exact ⟨⟨v, o, t⟩, hl, ⟨r, hr, hs⟩, le_trans (hwf (k, cv) (lookupC_mem hcv)) hle⟩

/-- Live keys `{"a", "c"}` with one row each. -/
def envRef : Env := { envOk with tab := [("a", ⟨"v1", ""⟩), ("c", ⟨"v3", ""⟩)] }

/-- Cache pre-populated with `{"a", "b"}` at clock 1. -/
def stRef : St := ⟨[("a", ⟨"old", zeroOpt, 0⟩), ("b", ⟨"vb", zeroOpt, 0⟩)], 1⟩

theorem refresh_converges_witness :
    (sqlcRefresh envRef stRef).1 = none ∧
    lookupC (sqlcRefresh envRef stRef).2.1.cache "b" = none ∧
    (∃ cv2, lookupC (sqlcRefresh envRef stRef).2.1.cache "a" = some cv2 ∧
      (∃ r, rowsFor envRef "a" = [r] ∧ scanRow envRef r = .ok (cv2.Value, cv2.Option)) ∧
      (0 : Nat) ≤ cv2.UpdateTime) := by
  have h := refresh_converges envRef stRef rfl rfl rfl (fun k => rfl)
    (fun s => ⟨zeroOpt, rfl⟩) rfl rfl (by decide) (by decide) (by decide)
  exact ⟨h.1, (h.2 "b" ⟨"vb", zeroOpt, 0⟩ rfl).1 (by decide),
    (h.2 "a" ⟨"old", zeroOpt, 0⟩ rfl).2 (by decide)⟩

/-! ### C5: what a read error during step 4 leaves behind -/

/-- C5 (amended): a backing-store read error while re-fetching the
still-live cached keys aborts the remainder of the cycle with that
error; the key whose re-fetch failed is left evicted, but the remaining
not-yet-processed keys keep their previous cache entries — they are not
evicted. -/
theorem refresh_read_error_aborts (env : Env) (ks1 ks2 : List String) (kf : String)
    (e : Err) (ht : env.tmplGetErr = none) (ho : env.openErr = none)
    (hc : env.closeErr = none) (hdec : ∀ s, ∃ o, env.dec s = .ok o)
    (hkf : kf ≠ "") (hqf : env.getQErr kf = some e) :
    ∀ st : St, (∀ k ∈ ks1, k ≠ "" ∧ env.getQErr k = none ∧ ∃ r, rowsFor env k = [r]) →
      (refreshLoop env (ks1 ++ kf :: ks2) st).1 = some e ∧
      lookupC (refreshLoop env (ks1 ++ kf :: ks2) st).2.1.cache kf = none ∧
      (∀ k ∈ ks2, k ∉ ks1 → k ≠ kf →
        lookupC (refreshLoop env (ks1 ++ kf :: ks2) st).2.1.cache k = lookupC st.cache k) := by
  induction ks1 with
  | nil =>
    intro st _
    have hg := sqlcGet_miss_qerr env ⟨eraseC st.cache kf, st.now⟩ kf e hkf
      (lookupC_eraseC_self _ _) ht ho hqf hc
    have hstep : refreshLoop env ([] ++ kf :: ks2) st =
        (some e, ⟨eraseC st.cache kf, st.now⟩, env) := by
      simp [refreshLoop, hg]
    rw [hstep]
    exact ⟨rfl, lookupC_eraseC_self _ _,
      fun k _ _ hkne => lookupC_eraseC_ne _ (Ne.symm hkne)⟩
  | cons k0 ks1 ih =>
    intro st hks
    obtain ⟨hk0, hq0, r, hr⟩ := hks k0 (List.mem_cons_self _ _)
    obtain ⟨v, o, hs⟩ := scanRow_ok_of_decTotal env hdec r
    have hg := sqlcGet_miss_single env ⟨eraseC st.cache k0, st.now⟩ k0 r hk0
      (lookupC_eraseC_self _ _) ht ho hq0 hc hr hs
    have hstep : refreshLoop env ((k0 :: ks1) ++ kf :: ks2) st =
        refreshLoop env (ks1 ++ kf :: ks2)
          ⟨insertC (eraseC st.cache k0) k0 ⟨v, o, st.now⟩, st.now + 1⟩ := by
      simp [refreshLoop, hg]
    rw [hstep]
    have hrec := ih ⟨insertC (eraseC st.cache k0) k0 ⟨v, o, st.now⟩, st.now + 1⟩
      (fun k hk => hks k (List.mem_cons_of_mem _ hk))
    refine ⟨hrec.1, hrec.2.1, ?_⟩
    intro k hk2 hnotk1 hkne
    have hkk0 : k ≠ k0 := fun hh => hnotk1 (by rw [hh]; exact List.mem_cons_self _ _)
    rw [hrec.2.2 k hk2 (fun hh => hnotk1 (List.mem_cons_of_mem _ hh)) hkne]
    show lookupC (insertC (eraseC st.cache k0) k0 ⟨v, o, st.now⟩) k = lookupC st.cache k
    rw [lookupC_insertC_ne _ _ (Ne.symm hkk0), lookupC_eraseC_ne _ (Ne.symm hkk0)]

/-- Live keys `{"a", "b"}`, both cached, with the read query for `"a"`
failing. -/
def envC5 : Env :=
  { envOk with
    tab := [("a", ⟨"1", ""⟩), ("b", ⟨"2", ""⟩)],
    getQErr := (fun k => if k = "a" then some (.storeE 3) else none) }

/-- Both live keys cached at clock 1. -/
def stC5 : St := ⟨[("a", ⟨"1", zeroOpt, 0⟩), ("b", ⟨"2", zeroOpt, 0⟩)], 1⟩

/-- C5 counterexample: the read error on `"a"` aborts the cycle, yet the
not-yet-processed key `"b"` is still cached afterwards — it is not left
evicted. -/
theorem refresh_leaves_rest_cached_ce :
    (sqlcRefresh envC5 stC5).1 = some (.storeE 3) ∧
    lookupC (sqlcRefresh envC5 stC5).2.1.cache "b" = some ⟨"2", zeroOpt, 0⟩ := by
  decide

theorem refresh_read_error_aborts_witness :
    (refreshLoop envC5 ([] ++ "a" :: ["b"]) stC5).1 = some (.storeE 3) ∧
    lookupC (refreshLoop envC5 ([] ++ "a" :: ["b"]) stC5).2.1.cache "a" = none := by
  have h := refresh_read_error_aborts envC5 [] ["b"] "a" (.storeE 3) rfl rfl rfl
    (fun s => ⟨zeroOpt, rfl⟩) (by decide) rfl stC5 (by simp)
  exact ⟨h.1, h.2.1⟩

/-! ### C9: how revision B's Set builds the option envelope -/

/-- C9 (amended): revision B's `Set` builds the option by applying the
supplied mutators in sequence to a zero-valued option and then stamps
`CreateTime` with the current formatted time unconditionally,
overwriting any `CreateTime` a mutator may have set. -/
theorem setB_createtime_stamped (env : Env) (k data : String) (fns : List OptionFnB)
    (now : String) (hk : k ≠ "") (ht : env.tmplSetErr = none) (ho : env.openErr = none)
    (hx : env.execSetErr = none) :
    (sqlcSetB env k data fns now).err = none ∧
    (sqlcSetB env k data fns now).written =
      some (data, { applyFnsB fns zeroOptB with CreateTime := now }) := by
  simp [sqlcSetB, hk, ht, ho, hx]

/-- C9 counterexample: a mutator that sets `CreateTime := "X"` is not
preserved — the written option carries the stamped time `"T"`. -/
theorem setB_createtime_overwritten_ce :
    (sqlcSetB envOk "a" "d" [(fun o => { o with CreateTime := "X" })] "T").written =
      some ("d", ⟨0, "T"⟩) ∧ ("T" : String) ≠ "X" := by
  decide

theorem setB_createtime_stamped_witness :
    (sqlcSetB envOk "a" "d" [(fun o => { o with Expired := 7 })] "T").err = none ∧
    (sqlcSetB envOk "a" "d" [(fun o => { o with Expired := 7 })] "T").written =
      some ("d",
        { applyFnsB [(fun o => { o with Expired := 7 })] zeroOptB with CreateTime := "T" }) :=
  setB_createtime_stamped envOk "a" "d" [(fun o => { o with Expired := 7 })] "T"
    (by decide) rfl rfl rfl

/-! ### C6: generator hydration writes through and propagates errors -/

/-- C6: for a non-empty key in neither the cache nor the backing store,
a successful generator hook leads `Get` to persist the generated value
through `Set(k, v, Apply(opt))`: when that `Set` reports nil, `Get`
returns `(true, opt, nil)` with the cache and table updated; when the
`Set` fails, its error is returned to the immediate caller (contained in
the `Get` error), never swallowed. -/
theorem get_generator_writethrough (env : Env) (st : St) (k : String) (f : GenFn)
    (v : String) (o : GOption) (hk : k ≠ "") (hcm : lookupC st.cache k = none)
    (ht : env.tmplGetErr = none) (ho : env.openErr = none) (hq : env.getQErr k = none)
    (hrows : rowsFor env k = []) (hf : f k = (v, o, none)) :
    ((sqlcSet env st k v [fun _ => o]).err = none →
      (sqlcGet env st k (some f)).found = true ∧
      (sqlcGet env st k (some f)).v = v ∧
      (sqlcGet env st k (some f)).opt = o ∧
      (sqlcGet env st k (some f)).err = none ∧
      lookupC (sqlcGet env st k (some f)).st.cache k = some ⟨v, o, st.now⟩ ∧
      (sqlcGet env st k (some f)).env.tab = setTab env.tab k v (env.enc o)) ∧
    (∀ e, (sqlcSet env st k v [fun _ => o]).err = some e →
      (sqlcGet env st k (some f)).found = false ∧
      containsErrO (sqlcGet env st k (some f)).err e = true) := by
  have hmain : sqlcGet env st k (some f) =
      (match (sqlcSet env st k v [fun _ => o]).err with
       | some e =>
          ⟨false, "", zeroOpt, appendE (some e) env.closeErr, true,
            (sqlcSet env st k v [fun _ => o]).st, (sqlcSet env st k v [fun _ => o]).env⟩
       | none =>
          ⟨true, v, o, env.closeErr, true,
            (sqlcSet env st k v [fun _ => o]).st, (sqlcSet env st k v [fun _ => o]).env⟩) := by
    simp [sqlcGet, hk, hcm, ht, ho, hq, hrows, hf]
  constructor
  · intro hs
    obtain ⟨hk2, ht2, ho2, hx2, hc2, heq⟩ := sqlcSet_ok hs
    rw [hmain, hs, heq]
    simp [hc2, applyFns, lookupC_insertC_self]
  · intro e hs
    rw [hmain, hs]
    exact ⟨rfl, containsErrO_appendE_left e env.closeErr⟩

/-- A generator hook that always succeeds. -/
def genOk : GenFn := fun _ => ("gv", ⟨5⟩, none)

theorem get_generator_writethrough_witness :
    (sqlcGet envOk stEmpty "k" (some genOk)).found = true ∧
    (sqlcGet envOk stEmpty "k" (some genOk)).v = "gv" ∧
    (sqlcGet envOk stEmpty "k" (some genOk)).err = none ∧
    lookupC (sqlcGet envOk stEmpty "k" (some genOk)).st.cache "k" = some ⟨"gv", ⟨5⟩, 0⟩ := by
  have h := (get_generator_writethrough envOk stEmpty "k" genOk "gv" ⟨5⟩
    (by decide) rfl rfl rfl rfl rfl rfl).1 rfl
  exact ⟨h.1, h.2.1, h.2.2.2.1, h.2.2.2.2.1⟩

/-! ### C3: a duplicated key aborts `Get` without touching the cache -/

/-- C3 (amended): when the backing-store read for a cache-missing,
non-empty key yields two or more rows, `Get` leaves the cache (and the
table) unmodified and returns `found = false` with an error; the error
wraps the too-many-values error whenever scanning the first row succeeds
(metadata column absent, empty, or decodable), while a metadata decode
failure on the first row surfaces as that decode error instead. -/
theorem get_too_many_rows (env : Env) (st : St) (k : String) (fn : Option GenFn)
    (r r2 : Row) (rest : List Row) (hk : k ≠ "") (hcm : lookupC st.cache k = none)
    (ht : env.tmplGetErr = none) (ho : env.openErr = none) (hq : env.getQErr k = none)
    (hrows : rowsFor env k = r :: r2 :: rest) :
    (sqlcGet env st k fn).st = st ∧ (sqlcGet env st k fn).env = env ∧
    (sqlcGet env st k fn).found = false ∧
    (∀ e, scanRow env r = .error e →
      (sqlcGet env st k fn).err = appendE (some e) env.closeErr) ∧
    (∀ v o, scanRow env r = .ok (v, o) →
      (sqlcGet env st k fn).err = appendE (some (.wrapKey k .tooManyValues)) env.closeErr ∧
      containsErrO (sqlcGet env st k fn).err .tooManyValues = true) := by
  have hmain : sqlcGet env st k fn =
      (match scanRow env r with
       | .error e => ⟨false, "", zeroOpt, appendE (some e) env.closeErr, true, st, env⟩
       | .ok (_, o) =>
          ⟨false, "", o, appendE (some (.wrapKey k .tooManyValues)) env.closeErr,
            true, st, env⟩) := by
    simp [sqlcGet, hk, hcm, ht, ho, hq, hrows]
  rw [hmain]
  cases hs : scanRow env r with
  | error e =>
    refine ⟨rfl, rfl, rfl, ?_, ?_⟩
    · intro e2 he2
      cases he2
      rfl
    · intro v o hvo
      cases hvo
  | ok p =>
    obtain ⟨v0, o0⟩ := p
    refine ⟨rfl, rfl, rfl, ?_, ?_⟩
    · intro e2 he2
      cases he2
    · intro v o hvo
      exact ⟨rfl, containsErrO_appendE_of (containsErr_wrapKey k .tooManyValues) _⟩

/-- Two live rows for `"k"`, the first with a metadata column that fails
to decode. -/
def envDupBad : Env :=
  { envOk with
    twoCols := true, dec := (fun _ => .error (.codecE 7)),
    tab := [("k", ⟨"v1", "bad"⟩), ("k", ⟨"v2", ""⟩)] }

/-- C3 counterexample: a two-row read whose first row carries an
undecodable metadata column makes `Get` return the codec error, not an
error wrapping the too-many-values error. -/
theorem get_too_many_rows_ce :
    (rowsFor envDupBad "k").length = 2 ∧
    (sqlcGet envDupBad stEmpty "k" none).err = some (.codecE 7) ∧
    containsErrO (sqlcGet envDupBad stEmpty "k" none).err .tooManyValues = false := by
  decide

/-- Two live rows for `"k"` with no metadata. -/
def envDup : Env := { envOk with tab := [("k", ⟨"v1", ""⟩), ("k", ⟨"v2", ""⟩)] }

theorem get_too_many_rows_witness :
    (sqlcGet envDup stEmpty "k" none).st = stEmpty ∧
    (sqlcGet envDup stEmpty "k" none).found = false ∧
    (sqlcGet envDup stEmpty "k" none).err = some (.wrapKey "k" .tooManyValues) ∧
    containsErrO (sqlcGet envDup stEmpty "k" none).err .tooManyValues = true := by
  have h := get_too_many_rows envDup stEmpty "k" none ⟨"v1", ""⟩ ⟨"v2", ""⟩ []
    (by decide) rfl rfl rfl rfl rfl
  have h5 := h.2.2.2.2 "v1" zeroOpt rfl
  exact ⟨h.1, h.2.2.1, h5.1, h5.2⟩

theorem del_found_semantics_witness :
    (sqlcDelB envOneA "a").found = true ∧
    (sqlcDelB ((sqlcDelB envOneA "a").env) "a").found = false ∧
    (sqlcDelB ((sqlcDelB envOneA "a").env) "a").err = none ∧
    (sqlcDel envOneA stEmpty "a").found = true := by
  have h := del_found_semantics envOneA "a" (by decide) rfl rfl rfl rfl rfl
  refine ⟨?_, h.1.2.2.1, h.1.2.2.2, (h.2 stEmpty).1⟩
  rw [h.1.1]
  decide

end Gokv
